import Mathlib

/-!
Verification of the `fih_rust` image-transformation service against its
specification.  The development embeds, over exact rational arithmetic:

* `calculate_resized_dimensions` (src/main.rs, lines 58–89), including a
  faithful model of IEEE-754 binary64 evaluation of the aspect-ratio
  arithmetic (round-to-nearest-even to a 53-bit significand; all values
  arising from `u32` inputs lie far inside the normal range, so neither
  overflow nor subnormals can occur), of Rust's `f64::round`
  (ties away from zero) and of the saturating `as u32` cast;
* the specification's own real-valued dimension formula, for comparison;
* the control flow of `resize_handler` and `process_image`
  (src/main.rs, lines 103–282) as a deterministic transition over an
  environment of collaborator outcomes, recording every external effect
  (directory creation, existence checks, file reads/writes, network
  download, decode, resize, encode) in an ordered trace.
-/

/-- Floor-log base 2 on naturals, fuel-structured so that it reduces in the
kernel; the fuel argument strictly bounds the recursion depth. -/
def natLog2Aux : ℕ → ℕ → ℕ
  | 0, _ => 0
  | fuel + 1, n => if n < 2 then 0 else natLog2Aux fuel (n / 2) + 1

/-- Floor-log base 2 on naturals (`natLog2Aux` with sufficient fuel). -/
def natLog2 (n : ℕ) : ℕ :=
  natLog2Aux n n

/-- Ceiling-log base 2 on naturals, fuel-structured. -/
def natClog2Aux : ℕ → ℕ → ℕ
  | 0, _ => 0
  | fuel + 1, n => if n ≤ 1 then 0 else natClog2Aux fuel ((n + 1) / 2) + 1

/-- Ceiling-log base 2 on naturals. -/
def natClog2 (n : ℕ) : ℕ :=
  natClog2Aux n n

theorem natLog2Aux_bounds (fuel : ℕ) : ∀ n : ℕ, 1 ≤ n → n ≤ fuel →
    2 ^ natLog2Aux fuel n ≤ n ∧ n < 2 ^ (natLog2Aux fuel n + 1) := by
  induction fuel with
  | zero => intro n h1 h2; omega
  | succ fuel ih =>
    intro n h1 h2
    by_cases hn : n < 2
    · simp only [natLog2Aux, if_pos hn]
      constructor <;> simp <;> omega
    · simp only [natLog2Aux, if_neg hn]
      have hhalf : 1 ≤ n / 2 := by omega
      have hfuel : n / 2 ≤ fuel := by omega
      obtain ⟨hlo, hhi⟩ := ih (n / 2) hhalf hfuel
      constructor
      · calc 2 ^ (natLog2Aux fuel (n / 2) + 1) = 2 * 2 ^ natLog2Aux fuel (n / 2) := by ring
        _ ≤ 2 * (n / 2) := by omega
        _ ≤ n := by omega
      · have : n / 2 + 1 ≤ 2 ^ (natLog2Aux fuel (n / 2) + 1) := hhi
        calc n < 2 * (n / 2 + 1) := by omega
        _ ≤ 2 * 2 ^ (natLog2Aux fuel (n / 2) + 1) := by omega
        _ = 2 ^ (natLog2Aux fuel (n / 2) + 1 + 1) := by ring

/-- The fuel-structured floor-log agrees with Mathlib's `Nat.log 2`. -/
theorem natLog2_eq (n : ℕ) : natLog2 n = Nat.log 2 n := by
  rcases Nat.eq_zero_or_pos n with h | h
  · subst h; simp [natLog2, natLog2Aux]
  · obtain ⟨hlo, hhi⟩ := natLog2Aux_bounds n n h le_rfl
    exact (Nat.log_eq_of_pow_le_of_lt_pow hlo hhi).symm

theorem natClog2Aux_spec (fuel : ℕ) : ∀ n : ℕ, n ≤ fuel →
    n ≤ 2 ^ natClog2Aux fuel n ∧ (1 < n → ¬n ≤ 2 ^ (natClog2Aux fuel n - 1)) := by
  induction fuel with
  | zero =>
    intro n h2
    have hn : n = 0 := by omega
    subst hn
    simp [natClog2Aux]
  | succ fuel ih =>
    intro n h2
    by_cases hn : n ≤ 1
    · simp only [natClog2Aux, if_pos hn]
      constructor
      · simpa using Nat.le_of_lt_succ (by omega)
      · omega
    · simp only [natClog2Aux, if_neg hn]
      have hhf : (n + 1) / 2 ≤ fuel := by omega
      obtain ⟨hlo, hhi⟩ := ih ((n + 1) / 2) hhf
      constructor
      · have h1 : n ≤ 2 * ((n + 1) / 2) := by omega
        have h2' : 2 * ((n + 1) / 2) ≤ 2 * 2 ^ natClog2Aux fuel ((n + 1) / 2) :=
          Nat.mul_le_mul_left 2 hlo
        have h3 : 2 * 2 ^ natClog2Aux fuel ((n + 1) / 2) =
            2 ^ (natClog2Aux fuel ((n + 1) / 2) + 1) := by ring
        omega
      · intro _
        simp only [Nat.add_sub_cancel]
        intro hcon
        by_cases h3 : 1 < (n + 1) / 2
        · have h4 := hhi h3
          push_neg at h4
          rcases Nat.eq_zero_or_pos (natClog2Aux fuel ((n + 1) / 2)) with hz | hp
          · rw [hz] at hcon
            simp at hcon
            omega
          · have hpow : 2 ^ natClog2Aux fuel ((n + 1) / 2) =
                2 * 2 ^ (natClog2Aux fuel ((n + 1) / 2) - 1) := by
              conv_lhs => rw [← Nat.sub_add_cancel hp]
              rw [pow_succ, Nat.mul_comm]
            rw [hpow] at hcon
            omega
        · have hc : natClog2Aux fuel ((n + 1) / 2) = 0 := by
            rcases fuel with _ | fuel
            · rfl
            · simp only [natClog2Aux, if_pos (by omega : (n + 1) / 2 ≤ 1)]
          rw [hc] at hcon
          simp at hcon
          omega

/-- The fuel-structured ceiling-log agrees with Mathlib's `Nat.clog 2`. -/
theorem natClog2_eq (n : ℕ) : natClog2 n = Nat.clog 2 n := by
  obtain ⟨hlo, hhi⟩ := natClog2Aux_spec n n le_rfl
  by_cases hn : 1 < n
  · have h1 : Nat.clog 2 n ≤ natClog2 n := (Nat.le_pow_iff_clog_le one_lt_two).1 hlo
    have h2 : natClog2 n ≤ Nat.clog 2 n := by
      by_contra hcon
      push_neg at hcon
      have hle : n ≤ 2 ^ Nat.clog 2 n := Nat.le_pow_clog one_lt_two n
      have : n ≤ 2 ^ (natClog2 n - 1) :=
        hle.trans (Nat.pow_le_pow_right (by norm_num) (by omega))
      exact hhi hn this
    omega
  · have h1 : natClog2 n = 0 := by
      rcases n with _ | n
      · rfl
      · simp only [natClog2, natClog2Aux, if_pos (by omega : n + 1 ≤ 1)]
    rw [h1]
    rcases Nat.lt_or_ge n 1 with h | h
    · have : n = 0 := by omega
      subst this
      simp
    · have : n = 1 := by omega
      subst this
      simp

/-- Base-2 integer logarithm on rationals, kernel-computable; mirrors the
definition of `Int.log 2`. -/
def intLog2 (q : ℚ) : ℤ :=
  if 1 ≤ q then (natLog2 ⌊q⌋₊ : ℤ) else -(natClog2 ⌈q⁻¹⌉₊ : ℤ)

theorem intLog2_eq (q : ℚ) : intLog2 q = Int.log 2 q := by
  by_cases h : 1 ≤ q
  · rw [intLog2, if_pos h, Int.log_of_one_le_right 2 h, natLog2_eq]
  · rw [intLog2, if_neg h, Int.log_of_right_le_one 2 (le_of_not_le h), natClog2_eq]

/-- Round a rational to the nearest integer, ties to even (the IEEE-754
default rounding used for every binary64 arithmetic operation). -/
def rne (s : ℚ) : ℤ :=
  if s - ⌊s⌋ < 1 / 2 then ⌊s⌋
  else if 1 / 2 < s - ⌊s⌋ then ⌊s⌋ + 1
  else if 2 ∣ ⌊s⌋ then ⌊s⌋ else ⌊s⌋ + 1

/-- Round a positive rational to the nearest IEEE-754 binary64 value
(53-bit significand, round-to-nearest-even), expressed exactly as a
rational.  Faithful for the normal range, which covers every value the
dimension calculator can produce from `u32` inputs; non-positive inputs
(never produced there) map to `0`. -/
def f64round (q : ℚ) : ℚ :=
  if q ≤ 0 then 0
  else (rne (q * 2 ^ ((52 : ℤ) - intLog2 q)) : ℚ) * 2 ^ (intLog2 q - 52)

/-- Rust's `f64::round`: round half away from zero.  Exact on every
binary64 value (doubles of magnitude at least `2 ^ 52` are integers). -/
def f64round_away (q : ℚ) : ℚ :=
  if q < 0 then -((⌊-q + 1 / 2⌋ : ℤ) : ℚ) else ((⌊q + 1 / 2⌋ : ℤ) : ℚ)

/-- Rust's saturating `f64 as u32` cast: truncate toward zero, clamp to
the `u32` range. -/
def f64_as_u32 (q : ℚ) : ℕ :=
  if q < 0 then 0 else min 4294967295 ⌊q⌋₊

/-- Embedding of `calculate_resized_dimensions` (src/main.rs lines 58–89):
the zero guard, the `f64` aspect ratio `w / h`, the branch on
`original_width >= original_height`, the `f64` quotient or product with
`tallest_side`, `f64::round`, and the `as u32` cast. -/
def calculate_resized_dimensions (original_width original_height tallest_side : ℕ) :
    ℕ × ℕ :=
  if original_width = 0 ∨ original_height = 0 ∨ tallest_side = 0 then (0, 0)
  else
    let aspect_ratio : ℚ := f64round ((original_width : ℚ) / (original_height : ℚ))
    if original_height ≤ original_width then
      (tallest_side,
        f64_as_u32 (f64round_away (f64round ((tallest_side : ℚ) / aspect_ratio))))
    else
      (f64_as_u32 (f64round_away (f64round ((tallest_side : ℚ) * aspect_ratio))),
        tallest_side)

/-- Nearest-integer rounding with ties away from zero, on exact rationals;
the rounding named by the specification. -/
def round_ties_away (v : ℚ) : ℤ :=
  if v < 0 then -⌊-v + 1 / 2⌋ else ⌊v + 1 / 2⌋

/-- Modelled from the spec (§4.2), for comparison with the source embedding:
real-valued `ratio = originalWidth / originalHeight`; landscape or square
gives `(tallestSide, round(tallestSide / ratio))`, portrait gives
`(round(tallestSide * ratio), tallestSide)`, rounding ties away from zero,
with the zero guard returning `(0, 0)`. -/
def spec_resized_dimensions (w h t : ℕ) : ℕ × ℕ :=
  if w = 0 ∨ h = 0 ∨ t = 0 then (0, 0)
  else if h ≤ w then
    (t, (round_ties_away ((t : ℚ) / ((w : ℚ) / (h : ℚ)))).toNat)
  else
    ((round_ties_away ((t : ℚ) * ((w : ℚ) / (h : ℚ)))).toNat, t)

/-- The JSON payload parsed from the request body
(struct `ResizeRequest`, src/main.rs lines 91–95). -/
structure ResizeRequest where
  tallestSide : ℕ
  format : Option String
deriving DecidableEq

/-- The error taxonomy (enum `CustomError`, src/main.rs lines 383–398). -/
inductive CustomError where
  | UnsupportedFormat
  | DownloadError
  | ImageDecodeError
  | ResizeError
  | FileCreationError
  | ImageEncodeError
  | DirectoryCreationError
  | FileWriteError
  | FileReadError
  | FileCorruptError
  | BadRequest
  | ProcessingError (details : String)
  | JsonDeserializeError (details : String)
deriving DecidableEq

/-- Status field of a successful JSON response (src/main.rs lines 134, 226). -/
inductive Status where
  | TRANSFORMED
  | ALREADY_TRANSFORMED
deriving DecidableEq

/-- A successful JSON response: status plus the hash and filename fields. -/
structure OkResponse where
  status : Status
  hash : String
  filename : String
deriving DecidableEq

/-- State of one path in the cache directory, as the handler can observe it:
missing (`fs::read` fails with `NotFound`), readable with the given bytes,
or failing to read with any other error kind. -/
inductive FileState where
  | absent
  | present (bytes : List ℕ)
  | unreadable
deriving DecidableEq

/-- External effects of one request, recorded in execution order. -/
inductive Effect where
  | createDirAll (path : String)
  | pathExists (path : String)
  | fsRead (path : String)
  | download (url : String)
  | fsCreate (path : String)
  | fsWrite (path : String) (bytes : List ℕ)
  | decode (bytes : List ℕ)
  | resize (srcW srcH dstW dstH : ℕ)
  | encode (format : String)
deriving DecidableEq

/-- Outcome of `String::from_utf8` plus `serde_json::from_str` on the capped
body bytes (src/main.rs lines 107–116): invalid UTF-8 is mapped to
`BadRequest`, a serde error to `JsonDeserializeError`. -/
inductive ParseOutcome where
  | utf8Error
  | jsonError (msg : String)
  | ok (request : ResizeRequest)
deriving DecidableEq

/-- The in-memory decoded image, reduced to what the orchestrator reads
from it: its dimensions. -/
structure Image where
  width : ℕ
  height : ℕ
deriving DecidableEq

/-- Environment of collaborator outcomes for one request.  The handler is a
deterministic function of this environment: `hash` is the blake3 collaborator
(a fixed pure function), `fs` the initial cache-directory state, `parse` the
UTF-8/serde collaborator applied to the capped body, `download` the network
collaborator, `decode`/`encodeBytes` the codec collaborators, and the `Bool`
knobs choose the failure outcomes of the individual filesystem calls. -/
structure Env where
  hash : String → String
  fs : String → FileState
  bodyReadFails : Bool
  rawBody : List ℕ
  parse : List ℕ → ParseOutcome
  mkdirFails : Bool
  download : String → Option (List ℕ)
  createFails : String → Bool
  writeFails : String → Bool
  joinFails : Option String
  decode : List ℕ → Option Image
  resizeFails : Bool
  encodeBytes : String → Option (List ℕ)
  heicEncodeOk : Bool
  heicWriteFails : Bool
  heicBytes : List ℕ

/-- Result of a request: the handler's return value, the ordered effect
trace, and the final cache-directory state. -/
structure HandlerOut where
  result : Except CustomError OkResponse
  trace : List Effect
  fs : String → FileState

/-- Overwrite one path of a directory state with freshly written bytes. -/
def setFile (fs : String → FileState) (p : String) (b : List ℕ) :
    String → FileState :=
  fun q => if q = p then FileState.present b else fs q

/-- The format allow-list (src/main.rs line 123). -/
def allowed_formats : List String := ["avif", "heic", "jxl", "qoi"]

/-- ASCII lowercase of one character; agrees with Rust's `to_lowercase`
on the ASCII strings compared against the format table. -/
def asciiLower (c : Char) : Char :=
  if 'A' ≤ c ∧ c ≤ 'Z' then Char.ofNat (c.toNat + 32) else c

/-- ASCII lowercase of a string. -/
def lowercase (s : String) : String :=
  String.mk (s.data.map asciiLower)

/-- Format resolution (src/main.rs lines 118–121): lowercase the optional
format field, with absence mapping to the empty string
(`map_or(String::new(), |s| s.to_lowercase())`). -/
def format_of (request : ResizeRequest) : String :=
  (request.format.map lowercase).getD ""

/-- The transformed blob's filename
`{hash}_{tallestSide}.{format}` (src/main.rs line 128). -/
def resized_filename_of (hash_str : String) (request : ResizeRequest)
    (format_str : String) : String :=
  hash_str ++ "_" ++ toString request.tallestSide ++ "." ++ format_str

/-- Embedding of `process_image` (src/main.rs lines 232–282): decode, then
compute target dimensions and resample, then encode by format tag; the
`heic` backend writes directly to the destination path and returns an empty
byte vector, the other backends return the encoded bytes. -/
def process_image (env : Env) (image_bytes : List ℕ) (request : ResizeRequest)
    (format_str : String) (resized_image_path : String)
    (fs0 : String → FileState) :
    Except CustomError (List ℕ) × List Effect × (String → FileState) :=
  match env.decode image_bytes with
  | none => (Except.error CustomError.ImageDecodeError, [Effect.decode image_bytes], fs0)
  | some img =>
    let dims := calculate_resized_dimensions img.width img.height request.tallestSide
    let tr2 := [Effect.decode image_bytes, Effect.resize img.width img.height dims.1 dims.2]
    if env.resizeFails then
      (Except.error CustomError.ResizeError, tr2, fs0)
    else
      let tr3 := tr2 ++ [Effect.encode format_str]
      match format_str with
      | "avif" =>
        match env.encodeBytes "avif" with
        | none => (Except.error CustomError.ImageEncodeError, tr3, fs0)
        | some b => (Except.ok b, tr3, fs0)
      | "heic" =>
        if env.heicEncodeOk then
          if env.heicWriteFails then
            (Except.error CustomError.FileCreationError, tr3, fs0)
          else
            (Except.ok [], tr3, setFile fs0 resized_image_path env.heicBytes)
        else
          (Except.error CustomError.ImageEncodeError, tr3, fs0)
      | "jxl" =>
        match env.encodeBytes "jxl" with
        | none => (Except.error CustomError.ImageEncodeError, tr3, fs0)
        | some b => (Except.ok b, tr3, fs0)
      | "qoi" =>
        match env.encodeBytes "qoi" with
        | none => (Except.error CustomError.ImageEncodeError, tr3, fs0)
        | some b => (Except.ok b, tr3, fs0)
      | _ => (Except.error (CustomError.ProcessingError "unreachable"), tr3, fs0)

/-- Continuation of `resize_handler` after the source bytes are in hand
(src/main.rs lines 181–229): the emptiness check, the offloaded
`process_image` call, and the persist stage guarded by
`!encoded_data.is_empty()`. -/
def after_read (env : Env) (request : ResizeRequest)
    (format_str hash_str resized_filename resized_image_path : String)
    (image_bytes : List ℕ) (tr : List Effect) (fs0 : String → FileState) :
    HandlerOut :=
  if image_bytes = [] then ⟨Except.error CustomError.BadRequest, tr, fs0⟩
  else
    match env.joinFails with
    | some msg => ⟨Except.error (CustomError.ProcessingError msg), tr, fs0⟩
    | none =>
      match process_image env image_bytes request format_str resized_image_path fs0 with
      | (Except.error e, ptr, fs1) => ⟨Except.error e, tr ++ ptr, fs1⟩
      | (Except.ok encoded, ptr, fs1) =>
        let tr6 := tr ++ ptr
        if encoded = [] then
          ⟨Except.ok ⟨Status.TRANSFORMED, hash_str, resized_filename⟩, tr6, fs1⟩
        else
          let tr7 := tr6 ++ [Effect.fsCreate resized_image_path]
          if env.createFails resized_image_path then
            ⟨Except.error CustomError.FileCreationError, tr7, fs1⟩
          else
            let tr8 := tr7 ++ [Effect.fsWrite resized_image_path encoded]
            if env.writeFails resized_image_path then
              ⟨Except.error CustomError.FileWriteError, tr8, fs1⟩
            else
              ⟨Except.ok ⟨Status.TRANSFORMED, hash_str, resized_filename⟩, tr8,
                setFile fs1 resized_image_path encoded⟩

/-- Embedding of `resize_handler` (src/main.rs lines 103–230): read the
capped body, parse, resolve and check the format, hash the source, create
the cache directory, short-circuit on an existing transformed blob, read or
download-and-store the source blob, then hand over to `after_read`. -/
def resize_handler (env : Env) (source : String) : HandlerOut :=
  if env.bodyReadFails then ⟨Except.error CustomError.BadRequest, [], env.fs⟩
  else
    match env.parse (env.rawBody.take 1024) with
    | ParseOutcome.utf8Error => ⟨Except.error CustomError.BadRequest, [], env.fs⟩
    | ParseOutcome.jsonError msg =>
      ⟨Except.error (CustomError.JsonDeserializeError msg), [], env.fs⟩
    | ParseOutcome.ok request =>
      let format_str := format_of request
      if format_str ∉ allowed_formats then
        ⟨Except.error CustomError.UnsupportedFormat, [], env.fs⟩
      else
        let hash_str := env.hash source
        let resized_filename := resized_filename_of hash_str request format_str
        let tr0 := [Effect.createDirAll "images"]
        if env.mkdirFails then
          ⟨Except.error CustomError.DirectoryCreationError, tr0, env.fs⟩
        else
          let resized_image_path := "images/" ++ resized_filename
          let tr1 := tr0 ++ [Effect.pathExists resized_image_path]
          if env.fs resized_image_path ≠ FileState.absent then
            ⟨Except.ok ⟨Status.ALREADY_TRANSFORMED, hash_str, resized_filename⟩,
              tr1, env.fs⟩
          else
            let downloaded_image_path := "images/" ++ hash_str
            let tr2 := tr1 ++ [Effect.fsRead downloaded_image_path]
            match env.fs downloaded_image_path with
            | FileState.present bytes =>
              if bytes = [] then ⟨Except.error CustomError.FileCorruptError, tr2, env.fs⟩
              else
                after_read env request format_str hash_str resized_filename
                  resized_image_path bytes tr2 env.fs
            | FileState.absent =>
              let tr3 := tr2 ++ [Effect.download source]
              match env.download source with
              | none => ⟨Except.error CustomError.DownloadError, tr3, env.fs⟩
              | some dl =>
                let tr4 := tr3 ++ [Effect.fsCreate downloaded_image_path]
                if env.createFails downloaded_image_path then
                  ⟨Except.error CustomError.FileCreationError, tr4, env.fs⟩
                else
                  let tr5 := tr4 ++ [Effect.fsWrite downloaded_image_path dl]
                  if env.writeFails downloaded_image_path then
                    ⟨Except.error CustomError.FileWriteError, tr5, env.fs⟩
                  else
                    after_read env request format_str hash_str resized_filename
                      resized_image_path dl tr5
                      (setFile env.fs downloaded_image_path dl)
            | FileState.unreadable =>
              ⟨Except.error CustomError.FileReadError, tr2, env.fs⟩

/-- C6: a request whose resolved format string is not exactly one of
"avif", "heic", "jxl", "qoi" is answered with `UnsupportedFormat` and the
effect trace is empty: no download and no filesystem access happen. -/
theorem C6_unsupported_format_rejected_before_io (env : Env) (source : String)
    (request : ResizeRequest)
    (hbody : env.bodyReadFails = false)
    (hparse : env.parse (env.rawBody.take 1024) = ParseOutcome.ok request)
    (hfmt : format_of request ∉ allowed_formats) :
    (resize_handler env source).result = Except.error CustomError.UnsupportedFormat ∧
    (resize_handler env source).trace = [] := by
  simp only [resize_handler, hbody, Bool.false_eq_true, if_false, hparse]
  rw [if_pos hfmt]
  exact ⟨rfl, rfl⟩

/-- Witness environment: well-formed request with the unsupported format
"bmp" over an empty cache. -/
def envBmp : Env where
  hash := fun _ => "h"
  fs := fun _ => FileState.absent
  bodyReadFails := false
  rawBody := []
  parse := fun _ => ParseOutcome.ok ⟨500, some "bmp"⟩
  mkdirFails := false
  download := fun _ => none
  createFails := fun _ => false
  writeFails := fun _ => false
  joinFails := none
  decode := fun _ => none
  resizeFails := false
  encodeBytes := fun _ => none
  heicEncodeOk := true
  heicWriteFails := false
  heicBytes := []

/-- Witness for C6 at a concrete environment with format "bmp". -/
theorem C6_unsupported_format_rejected_before_io_witness :
    (resize_handler envBmp "http://example/a.png").result =
      Except.error CustomError.UnsupportedFormat ∧
    (resize_handler envBmp "http://example/a.png").trace = [] :=
  C6_unsupported_format_rejected_before_io envBmp "http://example/a.png"
    ⟨500, some "bmp"⟩ rfl rfl (by decide)

deriving instance DecidableEq for Except

/-- Environment for a well-formed request that omits the optional format
field, over an empty cache. -/
def envNoFormat : Env where
  hash := fun _ => "h"
  fs := fun _ => FileState.absent
  bodyReadFails := false
  rawBody := []
  parse := fun _ => ParseOutcome.ok ⟨800, none⟩
  mkdirFails := false
  download := fun _ => some [1, 2, 3]
  createFails := fun _ => false
  writeFails := fun _ => false
  joinFails := none
  decode := fun _ => some ⟨1600, 1200⟩
  resizeFails := false
  encodeBytes := fun _ => some [9]
  heicEncodeOk := true
  heicWriteFails := false
  heicBytes := []

/-- C7 counterexample: a request without a format field is not processed
with a default format — it is rejected with `UnsupportedFormat`, even
though every collaborator in this environment would have succeeded. -/
theorem C7_missing_format_counterexample :
    (resize_handler envNoFormat "http://example/a.png").result =
      Except.error CustomError.UnsupportedFormat := by
  decide

/-- C7 amended: a request whose format field is absent resolves to the
empty format string, which is not in the allow-list, so the handler
rejects it with `UnsupportedFormat` before any I/O; there is no
configured default format. -/
theorem C7_missing_format_rejected (env : Env) (source : String)
    (request : ResizeRequest)
    (hbody : env.bodyReadFails = false)
    (hparse : env.parse (env.rawBody.take 1024) = ParseOutcome.ok request)
    (hnone : request.format = none) :
    (resize_handler env source).result = Except.error CustomError.UnsupportedFormat ∧
    (resize_handler env source).trace = [] := by
  have hfmt : format_of request ∉ allowed_formats := by
    simp [format_of, hnone, allowed_formats]
  simp only [resize_handler, hbody, Bool.false_eq_true, if_false, hparse]
  rw [if_pos hfmt]
  exact ⟨rfl, rfl⟩

/-- Witness for the amended C7 at a concrete environment. -/
theorem C7_missing_format_rejected_witness :
    (resize_handler envNoFormat "http://example/a.png").result =
      Except.error CustomError.UnsupportedFormat ∧
    (resize_handler envNoFormat "http://example/a.png").trace = [] :=
  C7_missing_format_rejected envNoFormat "http://example/a.png"
    ⟨800, none⟩ rfl rfl rfl


theorem after_read_ok_fields (env : Env) (request : ResizeRequest)
    (format_str hash_str resized_filename resized_image_path : String)
    (image_bytes : List ℕ) (tr : List Effect) (fs0 : String → FileState)
    (resp : OkResponse)
    (h : (after_read env request format_str hash_str resized_filename
        resized_image_path image_bytes tr fs0).result = Except.ok resp) :
    resp = ⟨Status.TRANSFORMED, hash_str, resized_filename⟩ := by
  unfold after_read at h
  by_cases he : image_bytes = []
  · rw [if_pos he] at h
    simp at h
  · rw [if_neg he] at h
    rcases hj : env.joinFails with _ | msg
    · rw [hj] at h
      rcases hp : process_image env image_bytes request format_str
          resized_image_path fs0 with ⟨res, ptr, fs1⟩
      rw [hp] at h
      rcases res with e | encoded
      · simp at h
      · dsimp only at h
        by_cases hz : encoded = []
        · rw [if_pos hz] at h
          exact ((Except.ok.injEq _ _).mp h).symm
        · rw [if_neg hz] at h
          by_cases hc : env.createFails resized_image_path
          · rw [if_pos hc] at h
            simp at h
          · rw [if_neg hc] at h
            by_cases hw : env.writeFails resized_image_path
            · rw [if_pos hw] at h
              simp at h
            · rw [if_neg hw] at h
              exact ((Except.ok.injEq _ _).mp h).symm
    · rw [hj] at h
      simp at h

theorem resize_handler_ok_fields (env : Env) (source : String)
    (resp : OkResponse)
    (h : (resize_handler env source).result = Except.ok resp) :
    ∃ request, env.parse (env.rawBody.take 1024) = ParseOutcome.ok request ∧
      resp.hash = env.hash source ∧
      resp.filename =
        resized_filename_of (env.hash source) request (format_of request) := by
  unfold resize_handler at h
  by_cases hb : env.bodyReadFails
  · rw [if_pos hb] at h
    simp at h
  · rw [if_neg hb] at h
    rcases hp : env.parse (env.rawBody.take 1024) with _ | msg | request
    · rw [hp] at h
      simp at h
    · rw [hp] at h
      simp at h
    · rw [hp] at h
      dsimp only at h
      refine ⟨request, rfl, ?_⟩
      by_cases hf : format_of request ∉ allowed_formats
      · rw [if_pos hf] at h
        simp at h
      · rw [if_neg hf] at h
        by_cases hm : env.mkdirFails
        · rw [if_pos hm] at h
          simp at h
        · rw [if_neg hm] at h
          by_cases hx : env.fs ("images/" ++
              resized_filename_of (env.hash source) request (format_of request)) ≠
              FileState.absent
          · rw [if_pos hx] at h
            have hre : resp = ⟨Status.ALREADY_TRANSFORMED, env.hash source,
                resized_filename_of (env.hash source) request (format_of request)⟩ :=
              ((Except.ok.injEq _ _).mp h).symm
            rw [hre]
            exact ⟨rfl, rfl⟩
          · rw [if_neg hx] at h
            rcases hs : env.fs ("images/" ++ env.hash source) with _ | bytes | _
            · rw [hs] at h
              dsimp only at h
              rcases hd : env.download source with _ | dl
              · rw [hd] at h
                simp at h
              · rw [hd] at h
                dsimp only at h
                by_cases hc : env.createFails ("images/" ++ env.hash source)
                · rw [if_pos hc] at h
                  simp at h
                · rw [if_neg hc] at h
                  by_cases hw : env.writeFails ("images/" ++ env.hash source)
                  · rw [if_pos hw] at h
                    simp at h
                  · rw [if_neg hw] at h
                    have := after_read_ok_fields _ _ _ _ _ _ _ _ _ _ h
                    rw [this]
                    exact ⟨rfl, rfl⟩
            · rw [hs] at h
              dsimp only at h
              by_cases hz : bytes = []
              · rw [if_pos hz] at h
                simp at h
              · rw [if_neg hz] at h
                have := after_read_ok_fields _ _ _ _ _ _ _ _ _ _ h
                rw [this]
                exact ⟨rfl, rfl⟩
            · rw [hs] at h
              simp at h

/-- C1: if the transformed blob file already exists when a valid request
arrives, the handler returns `ALREADY_TRANSFORMED` carrying exactly the
hash and filename a fresh computation would report as `TRANSFORMED`, and
the effect trace holds only the directory creation and the existence
check: no download, no source-cache read, no decode, no resize, no
encode, and no persist happen. -/
theorem C1_already_transformed_short_circuit (env : Env) (source : String)
    (request : ResizeRequest)
    (hbody : env.bodyReadFails = false)
    (hparse : env.parse (env.rawBody.take 1024) = ParseOutcome.ok request)
    (hfmt : format_of request ∈ allowed_formats)
    (hmkdir : env.mkdirFails = false)
    (hexists : env.fs ("images/" ++ resized_filename_of (env.hash source) request
        (format_of request)) ≠ FileState.absent) :
    (resize_handler env source).result = Except.ok
      ⟨Status.ALREADY_TRANSFORMED, env.hash source,
        resized_filename_of (env.hash source) request (format_of request)⟩ ∧
    (resize_handler env source).trace =
      [Effect.createDirAll "images",
        Effect.pathExists ("images/" ++ resized_filename_of (env.hash source) request
          (format_of request))] ∧
    ∀ env' resp, env'.hash = env.hash →
      env'.parse (env'.rawBody.take 1024) = ParseOutcome.ok request →
      (resize_handler env' source).result = Except.ok resp →
      resp.status = Status.TRANSFORMED →
      resp.hash = env.hash source ∧
      resp.filename = resized_filename_of (env.hash source) request (format_of request) := by
  refine ⟨?_, ?_, ?_⟩
  · unfold resize_handler
    rw [if_neg (by rw [hbody]; exact Bool.false_ne_true), hparse]
    dsimp only
    rw [if_neg (not_not_intro hfmt),
      if_neg (by rw [hmkdir]; exact Bool.false_ne_true), if_pos hexists]
  · unfold resize_handler
    rw [if_neg (by rw [hbody]; exact Bool.false_ne_true), hparse]
    dsimp only
    rw [if_neg (not_not_intro hfmt),
      if_neg (by rw [hmkdir]; exact Bool.false_ne_true), if_pos hexists]
    rfl
  · intro env' resp hh hp' hok hstat
    obtain ⟨req', hpr, hhash, hfn⟩ := resize_handler_ok_fields env' source resp hok
    have hreq : req' = request := by
      rw [hp'] at hpr
      exact (ParseOutcome.ok.inj hpr).symm
    have hsrc : env'.hash source = env.hash source := congrFun hh source
    constructor
    · rw [hhash, hsrc]
    · rw [hfn, hreq, hsrc]

/-- Environment in which the transformed blob `images/h_500.qoi` already
exists and all collaborators would succeed. -/
def envQoiHit : Env where
  hash := fun _ => "h"
  fs := fun p => if p = "images/h_500.qoi" then FileState.present [7] else FileState.absent
  bodyReadFails := false
  rawBody := []
  parse := fun _ => ParseOutcome.ok ⟨500, some "qoi"⟩
  mkdirFails := false
  download := fun _ => some [1, 2, 3]
  createFails := fun _ => false
  writeFails := fun _ => false
  joinFails := none
  decode := fun _ => some ⟨1600, 1200⟩
  resizeFails := false
  encodeBytes := fun _ => some [9]
  heicEncodeOk := true
  heicWriteFails := false
  heicBytes := []

/-- Witness for C1 at a concrete environment with an existing
transformed blob. -/
theorem C1_already_transformed_short_circuit_witness :
    (resize_handler envQoiHit "u").result = Except.ok
      ⟨Status.ALREADY_TRANSFORMED, envQoiHit.hash "u",
        resized_filename_of (envQoiHit.hash "u") ⟨500, some "qoi"⟩
          (format_of ⟨500, some "qoi"⟩)⟩ ∧
    (resize_handler envQoiHit "u").trace =
      [Effect.createDirAll "images",
        Effect.pathExists ("images/" ++ resized_filename_of (envQoiHit.hash "u")
          ⟨500, some "qoi"⟩ (format_of ⟨500, some "qoi"⟩))] ∧
    ∀ env' resp, env'.hash = envQoiHit.hash →
      env'.parse (env'.rawBody.take 1024) = ParseOutcome.ok ⟨500, some "qoi"⟩ →
      (resize_handler env' "u").result = Except.ok resp →
      resp.status = Status.TRANSFORMED →
      resp.hash = envQoiHit.hash "u" ∧
      resp.filename = resized_filename_of (envQoiHit.hash "u") ⟨500, some "qoi"⟩
        (format_of ⟨500, some "qoi"⟩) :=
  C1_already_transformed_short_circuit envQoiHit "u" ⟨500, some "qoi"⟩
    rfl rfl (by decide) rfl (by decide)

theorem after_read_trace_extends (env : Env) (request : ResizeRequest)
    (format_str hash_str resized_filename resized_image_path : String)
    (image_bytes : List ℕ) (tr : List Effect) (fs0 : String → FileState) :
    ∃ rest, (after_read env request format_str hash_str resized_filename
      resized_image_path image_bytes tr fs0).trace = tr ++ rest := by
  unfold after_read
  by_cases he : image_bytes = []
  · rw [if_pos he]
    exact ⟨[], (List.append_nil tr).symm⟩
  · rw [if_neg he]
    rcases hj : env.joinFails with _ | msg
    · rcases hp : process_image env image_bytes request format_str
          resized_image_path fs0 with ⟨res, ptr, fs1⟩
      rcases res with e | encoded
      · exact ⟨ptr, rfl⟩
      · dsimp only
        by_cases hz : encoded = []
        · rw [if_pos hz]
          exact ⟨ptr, rfl⟩
        · rw [if_neg hz]
          by_cases hc : env.createFails resized_image_path
          · rw [if_pos hc]
            exact ⟨ptr ++ [Effect.fsCreate resized_image_path], by simp⟩
          · rw [if_neg hc]
            by_cases hw : env.writeFails resized_image_path
            · rw [if_pos hw]
              exact ⟨ptr ++ [Effect.fsCreate resized_image_path] ++
                [Effect.fsWrite resized_image_path encoded], by simp⟩
            · rw [if_neg hw]
              exact ⟨ptr ++ [Effect.fsCreate resized_image_path] ++
                [Effect.fsWrite resized_image_path encoded], by simp⟩
    · exact ⟨[], (List.append_nil tr).symm⟩

/-- C4: with the request validated and the transformed blob absent, the
source-cache read dispatches as the code does: a readable zero-length blob
yields `FileCorruptError` with no download attempted; a missing blob takes
the download path; any other read failure yields `FileReadError`. -/
theorem C4_source_cache_read_dispatch (env : Env) (source : String)
    (request : ResizeRequest)
    (hbody : env.bodyReadFails = false)
    (hparse : env.parse (env.rawBody.take 1024) = ParseOutcome.ok request)
    (hfmt : format_of request ∈ allowed_formats)
    (hmkdir : env.mkdirFails = false)
    (hmiss : env.fs ("images/" ++ resized_filename_of (env.hash source) request
        (format_of request)) = FileState.absent) :
    (env.fs ("images/" ++ env.hash source) = FileState.present [] →
      (resize_handler env source).result = Except.error CustomError.FileCorruptError ∧
      ∀ u, Effect.download u ∉ (resize_handler env source).trace) ∧
    (env.fs ("images/" ++ env.hash source) = FileState.absent →
      Effect.download source ∈ (resize_handler env source).trace) ∧
    (env.fs ("images/" ++ env.hash source) = FileState.unreadable →
      (resize_handler env source).result = Except.error CustomError.FileReadError) := by
  have hred : resize_handler env source =
      (match env.fs ("images/" ++ env.hash source) with
      | FileState.present bytes =>
        if bytes = [] then
          ⟨Except.error CustomError.FileCorruptError,
            [Effect.createDirAll "images",
              Effect.pathExists ("images/" ++ resized_filename_of (env.hash source)
                request (format_of request)),
              Effect.fsRead ("images/" ++ env.hash source)], env.fs⟩
        else
          after_read env request (format_of request) (env.hash source)
            (resized_filename_of (env.hash source) request (format_of request))
            ("images/" ++ resized_filename_of (env.hash source) request
              (format_of request)) bytes
            [Effect.createDirAll "images",
              Effect.pathExists ("images/" ++ resized_filename_of (env.hash source)
                request (format_of request)),
              Effect.fsRead ("images/" ++ env.hash source)] env.fs
      | FileState.absent =>
        let tr3 := [Effect.createDirAll "images",
          Effect.pathExists ("images/" ++ resized_filename_of (env.hash source)
            request (format_of request)),
          Effect.fsRead ("images/" ++ env.hash source), Effect.download source]
        match env.download source with
        | none => ⟨Except.error CustomError.DownloadError, tr3, env.fs⟩
        | some dl =>
          let tr4 := tr3 ++ [Effect.fsCreate ("images/" ++ env.hash source)]
          if env.createFails ("images/" ++ env.hash source) then
            ⟨Except.error CustomError.FileCreationError, tr4, env.fs⟩
          else
            let tr5 := tr4 ++ [Effect.fsWrite ("images/" ++ env.hash source) dl]
            if env.writeFails ("images/" ++ env.hash source) then
              ⟨Except.error CustomError.FileWriteError, tr5, env.fs⟩
            else
              after_read env request (format_of request) (env.hash source)
                (resized_filename_of (env.hash source) request (format_of request))
                ("images/" ++ resized_filename_of (env.hash source) request
                  (format_of request)) dl tr5
                (setFile env.fs ("images/" ++ env.hash source) dl)
      | FileState.unreadable =>
        ⟨Except.error CustomError.FileReadError,
          [Effect.createDirAll "images",
            Effect.pathExists ("images/" ++ resized_filename_of (env.hash source)
              request (format_of request)),
            Effect.fsRead ("images/" ++ env.hash source)], env.fs⟩) := by
    unfold resize_handler
    rw [if_neg (by rw [hbody]; exact Bool.false_ne_true), hparse]
    dsimp only
    rw [if_neg (not_not_intro hfmt),
      if_neg (by rw [hmkdir]; exact Bool.false_ne_true),
      if_neg (not_not_intro hmiss)]
    rfl
  refine ⟨?_, ?_, ?_⟩
  · intro hsrc
    rw [hred, hsrc]
    dsimp only
    rw [if_pos rfl]
    exact ⟨rfl, by simp⟩
  · intro hsrc
    rw [hred, hsrc]
    dsimp only
    rcases hd : env.download source with _ | dl
    · simp
    · dsimp only
      by_cases hc : env.createFails ("images/" ++ env.hash source)
      · rw [if_pos hc]
        simp
      · rw [if_neg hc]
        by_cases hw : env.writeFails ("images/" ++ env.hash source)
        · rw [if_pos hw]
          simp
        · rw [if_neg hw]
          obtain ⟨rest, hrest⟩ := after_read_trace_extends env request
            (format_of request) (env.hash source)
            (resized_filename_of (env.hash source) request (format_of request))
            ("images/" ++ resized_filename_of (env.hash source) request
              (format_of request)) dl
            ([Effect.createDirAll "images",
              Effect.pathExists ("images/" ++ resized_filename_of (env.hash source)
                request (format_of request)),
              Effect.fsRead ("images/" ++ env.hash source), Effect.download source] ++
              [Effect.fsCreate ("images/" ++ env.hash source)] ++
              [Effect.fsWrite ("images/" ++ env.hash source) dl])
            (setFile env.fs ("images/" ++ env.hash source) dl)
          rw [hrest]
          simp
  · intro hsrc
    rw [hred, hsrc]

/-- Environment for a valid `qoi` request over an entirely empty cache,
whose decode collaborator fails. -/
def envQoiMiss : Env where
  hash := fun _ => "h"
  fs := fun _ => FileState.absent
  bodyReadFails := false
  rawBody := []
  parse := fun _ => ParseOutcome.ok ⟨500, some "qoi"⟩
  mkdirFails := false
  download := fun _ => some [1, 2, 3]
  createFails := fun _ => false
  writeFails := fun _ => false
  joinFails := none
  decode := fun _ => none
  resizeFails := false
  encodeBytes := fun _ => some [9]
  heicEncodeOk := true
  heicWriteFails := false
  heicBytes := []

/-- Witness for C4 at a concrete environment. -/
theorem C4_source_cache_read_dispatch_witness :
    (envQoiMiss.fs ("images/" ++ envQoiMiss.hash "u") = FileState.present [] →
      (resize_handler envQoiMiss "u").result =
        Except.error CustomError.FileCorruptError ∧
      ∀ u, Effect.download u ∉ (resize_handler envQoiMiss "u").trace) ∧
    (envQoiMiss.fs ("images/" ++ envQoiMiss.hash "u") = FileState.absent →
      Effect.download "u" ∈ (resize_handler envQoiMiss "u").trace) ∧
    (envQoiMiss.fs ("images/" ++ envQoiMiss.hash "u") = FileState.unreadable →
      (resize_handler envQoiMiss "u").result =
        Except.error CustomError.FileReadError) :=
  C4_source_cache_read_dispatch envQoiMiss "u" ⟨500, some "qoi"⟩
    rfl rfl (by decide) rfl rfl

/-- Environment in which the cache is empty and the download collaborator
returns an empty response body for every URL. -/
def envEmptyDl : Env where
  hash := fun _ => "h"
  fs := fun _ => FileState.absent
  bodyReadFails := false
  rawBody := []
  parse := fun _ => ParseOutcome.ok ⟨500, some "qoi"⟩
  mkdirFails := false
  download := fun _ => some []
  createFails := fun _ => false
  writeFails := fun _ => false
  joinFails := none
  decode := fun _ => none
  resizeFails := false
  encodeBytes := fun _ => some [9]
  heicEncodeOk := true
  heicWriteFails := false
  heicBytes := []

/-- C5 counterexample: an empty download body does yield `BadRequest`, but
a zero-length source blob is left stored at the source-cache path, because
the bytes are written to disk before the emptiness check. -/
theorem C5_empty_download_counterexample :
    (resize_handler envEmptyDl "u").result = Except.error CustomError.BadRequest ∧
    (resize_handler envEmptyDl "u").fs ("images/" ++ envEmptyDl.hash "u") =
      FileState.present [] := by
  constructor
  · rfl
  · rfl

/-- C5 amended: when the download collaborator returns an empty body the
request fails with `BadRequest`, but only after the empty byte vector has
been persisted to the source-cache path, so a zero-length source blob is
left stored on disk. -/
theorem C5_empty_download_behaviour (env : Env) (source : String)
    (request : ResizeRequest)
    (hbody : env.bodyReadFails = false)
    (hparse : env.parse (env.rawBody.take 1024) = ParseOutcome.ok request)
    (hfmt : format_of request ∈ allowed_formats)
    (hmkdir : env.mkdirFails = false)
    (hmiss : env.fs ("images/" ++ resized_filename_of (env.hash source) request
        (format_of request)) = FileState.absent)
    (hsrc : env.fs ("images/" ++ env.hash source) = FileState.absent)
    (hdl : env.download source = some [])
    (hcreate : env.createFails ("images/" ++ env.hash source) = false)
    (hwrite : env.writeFails ("images/" ++ env.hash source) = false) :
    (resize_handler env source).result = Except.error CustomError.BadRequest ∧
    (resize_handler env source).fs ("images/" ++ env.hash source) =
      FileState.present [] ∧
    Effect.fsWrite ("images/" ++ env.hash source) [] ∈
      (resize_handler env source).trace := by
  have hrun : resize_handler env source =
      after_read env request (format_of request) (env.hash source)
        (resized_filename_of (env.hash source) request (format_of request))
        ("images/" ++ resized_filename_of (env.hash source) request
          (format_of request)) []
        [Effect.createDirAll "images",
          Effect.pathExists ("images/" ++ resized_filename_of (env.hash source)
            request (format_of request)),
          Effect.fsRead ("images/" ++ env.hash source), Effect.download source,
          Effect.fsCreate ("images/" ++ env.hash source),
          Effect.fsWrite ("images/" ++ env.hash source) []]
        (setFile env.fs ("images/" ++ env.hash source) []) := by
    unfold resize_handler
    rw [if_neg (by rw [hbody]; exact Bool.false_ne_true), hparse]
    dsimp only
    rw [if_neg (not_not_intro hfmt),
      if_neg (by rw [hmkdir]; exact Bool.false_ne_true),
      if_neg (not_not_intro hmiss), hsrc]
    dsimp only
    rw [hdl]
    dsimp only
    rw [if_neg (by rw [hcreate]; exact Bool.false_ne_true),
      if_neg (by rw [hwrite]; exact Bool.false_ne_true)]
    rfl
  rw [hrun]
  unfold after_read
  rw [if_pos rfl]
  refine ⟨rfl, ?_, by simp⟩
  simp [setFile]

/-- Witness for the amended C5 at a concrete environment. -/
theorem C5_empty_download_behaviour_witness :
    (resize_handler envEmptyDl "u").result = Except.error CustomError.BadRequest ∧
    (resize_handler envEmptyDl "u").fs ("images/" ++ envEmptyDl.hash "u") =
      FileState.present [] ∧
    Effect.fsWrite ("images/" ++ envEmptyDl.hash "u") [] ∈
      (resize_handler envEmptyDl "u").trace :=
  C5_empty_download_behaviour envEmptyDl "u" ⟨500, some "qoi"⟩
    rfl rfl (by decide) rfl rfl rfl rfl rfl rfl

/-- Environment whose raw request body is 1025 bytes of spaces around a
small JSON document, so that the 1024-byte cap truncates it and the serde
collaborator still parses the truncated bytes successfully. -/
def envBigBody : Env where
  hash := fun _ => "h"
  fs := fun _ => FileState.absent
  bodyReadFails := false
  rawBody := List.replicate 1025 32
  parse := fun _ => ParseOutcome.ok ⟨500, some "bmp"⟩
  mkdirFails := false
  download := fun _ => none
  createFails := fun _ => false
  writeFails := fun _ => false
  joinFails := none
  decode := fun _ => none
  resizeFails := false
  encodeBytes := fun _ => none
  heicEncodeOk := true
  heicWriteFails := false
  heicBytes := []

/-- C8 counterexample: a 1025-byte request body is not rejected with
`BadRequest`; the handler silently truncates it to 1024 bytes and
processes the result (here it proceeds to the format check and fails with
`UnsupportedFormat` instead). -/
theorem C8_oversized_body_counterexample :
    envBigBody.rawBody.length = 1025 ∧
    (resize_handler envBigBody "u").result =
      Except.error CustomError.UnsupportedFormat ∧
    (resize_handler envBigBody "u").result ≠
      Except.error CustomError.BadRequest := by
  refine ⟨?_, rfl, by decide⟩
  show (List.replicate 1025 32).length = 1025
  rw [List.length_replicate]

/-- C8 amended: the handler reads the body through a 1024-byte cap and
processes only the first 1024 bytes — an oversized body is truncated, not
rejected; an I/O failure reading the body (or invalid UTF-8) yields
`BadRequest`, and malformed JSON yields `JsonDeserializeError`, in all
cases with an empty effect trace, before any network or disk access. -/
theorem C8_body_intake_behaviour (env : Env) (source : String) :
    resize_handler env source =
      resize_handler { env with rawBody := env.rawBody.take 1024 } source ∧
    (env.bodyReadFails = true →
      (resize_handler env source).result = Except.error CustomError.BadRequest ∧
      (resize_handler env source).trace = []) ∧
    (env.bodyReadFails = false →
      env.parse (env.rawBody.take 1024) = ParseOutcome.utf8Error →
      (resize_handler env source).result = Except.error CustomError.BadRequest ∧
      (resize_handler env source).trace = []) ∧
    (∀ msg, env.bodyReadFails = false →
      env.parse (env.rawBody.take 1024) = ParseOutcome.jsonError msg →
      (resize_handler env source).result =
        Except.error (CustomError.JsonDeserializeError msg) ∧
      (resize_handler env source).trace = []) := by
  refine ⟨?_, ?_, ?_, ?_⟩
  · have hpt : ({ env with rawBody := env.rawBody.take 1024 } : Env).parse
        (({ env with rawBody := env.rawBody.take 1024 } : Env).rawBody.take 1024) =
        env.parse (env.rawBody.take 1024) := by
      show env.parse ((env.rawBody.take 1024).take 1024) =
        env.parse (env.rawBody.take 1024)
      rw [List.take_take, min_self]
    unfold resize_handler
    rw [hpt]
    rfl
  · intro hb
    unfold resize_handler
    rw [if_pos hb]
    exact ⟨rfl, rfl⟩
  · intro hb hp
    unfold resize_handler
    rw [if_neg (by rw [hb]; exact Bool.false_ne_true), hp]
    exact ⟨rfl, rfl⟩
  · intro msg hb hp
    unfold resize_handler
    rw [if_neg (by rw [hb]; exact Bool.false_ne_true), hp]
    exact ⟨rfl, rfl⟩

/-- Environment whose serde collaborator reports malformed JSON. -/
def envBadJson : Env where
  hash := fun _ => "h"
  fs := fun _ => FileState.absent
  bodyReadFails := false
  rawBody := [123]
  parse := fun _ => ParseOutcome.jsonError "expected value"
  mkdirFails := false
  download := fun _ => none
  createFails := fun _ => false
  writeFails := fun _ => false
  joinFails := none
  decode := fun _ => none
  resizeFails := false
  encodeBytes := fun _ => none
  heicEncodeOk := true
  heicWriteFails := false
  heicBytes := []

/-- Witness for the amended C8: the malformed-JSON case at a concrete
environment. -/
theorem C8_body_intake_behaviour_witness :
    (resize_handler envBadJson "u").result =
      Except.error (CustomError.JsonDeserializeError "expected value") ∧
    (resize_handler envBadJson "u").trace = [] :=
  (C8_body_intake_behaviour envBadJson "u").2.2.2 "expected value" rfl rfl

/-- C3: the zero guard: if any of the three arguments is zero,
`calculate_resized_dimensions` returns `(0, 0)`. -/
theorem C3_zero_guard (w h t : ℕ) (hz : w = 0 ∨ h = 0 ∨ t = 0) :
    calculate_resized_dimensions w h t = (0, 0) := by
  unfold calculate_resized_dimensions
  rw [if_pos hz]

/-- Witness for C3 at a concrete zero input. -/
theorem C3_zero_guard_witness :
    ((0 : ℕ) = 0 ∨ (5 : ℕ) = 0 ∨ (7 : ℕ) = 0) ∧
    calculate_resized_dimensions 0 5 7 = (0, 0) :=
  ⟨Or.inl rfl, C3_zero_guard 0 5 7 (Or.inl rfl)⟩

set_option maxRecDepth 10000 in
unseal Rat.mul Rat.add Rat.inv Rat.sub in
/-- C10: strictly positive inputs can produce a zero output dimension:
`calculate_resized_dimensions 1 1000 100 = (0, 100)`, since the rounded
product `100 * (1/1000)` is `0`; positive inputs do not guarantee both
output dimensions positive. -/
theorem C10_positive_inputs_can_give_zero_dimension :
    0 < 1 ∧ 0 < 1000 ∧ 0 < 100 ∧
    calculate_resized_dimensions 1 1000 100 = (0, 100) := by
  refine ⟨by decide, by decide, by decide, by decide⟩

theorem rne_floor_le (s : ℚ) : ⌊s⌋ ≤ rne s := by
  unfold rne
  split_ifs <;> omega

theorem rne_le_floor_add_one (s : ℚ) : rne s ≤ ⌊s⌋ + 1 := by
  unfold rne
  split_ifs <;> omega

theorem rne_intCast (n : ℤ) : rne (n : ℚ) = n := by
  unfold rne
  rw [Int.floor_intCast]
  rw [if_pos (by norm_num)]

theorem rne_mono {s t : ℚ} (h : s ≤ t) : rne s ≤ rne t := by
  rcases lt_or_eq_of_le (Int.floor_le_floor h) with hf | hf
  · have h1 := rne_le_floor_add_one s
    have h2 := rne_floor_le t
    omega
  · unfold rne
    rw [← hf]
    split_ifs <;> first | omega | (exfalso; linarith)

theorem abs_rne_sub (s : ℚ) : |(rne s : ℚ) - s| ≤ 1 / 2 := by
  have h1 : (⌊s⌋ : ℚ) ≤ s := Int.floor_le s
  have h2 : s < ⌊s⌋ + 1 := Int.lt_floor_add_one s
  unfold rne
  split_ifs <;>
    · rw [abs_le]
      push_cast
      constructor <;> linarith

theorem f64round_eq {q : ℚ} (hq : 0 < q) :
    f64round q =
      (rne (q * 2 ^ ((52 : ℤ) - Int.log 2 q)) : ℚ) * 2 ^ (Int.log 2 q - 52) := by
  rw [f64round, if_neg (not_le.mpr hq), intLog2_eq]

theorem two_zpow_log_le {q : ℚ} (hq : 0 < q) : (2 : ℚ) ^ Int.log 2 q ≤ q := by
  have h := Int.zpow_log_le_self (b := 2) (R := ℚ) one_lt_two hq
  push_cast at h
  exact h

theorem lt_two_zpow_log {q : ℚ} (hq : 0 < q) :
    q < (2 : ℚ) ^ (Int.log 2 q + 1) := by
  have h := Int.lt_zpow_succ_log_self (b := 2) (R := ℚ) one_lt_two q
  push_cast at h
  exact h

theorem sig_lower {q : ℚ} (hq : 0 < q) :
    (2 : ℚ) ^ (52 : ℤ) ≤ q * 2 ^ ((52 : ℤ) - Int.log 2 q) := by
  have h1 := two_zpow_log_le hq
  have hp : (0 : ℚ) < 2 ^ ((52 : ℤ) - Int.log 2 q) := zpow_pos (by norm_num) _
  calc (2 : ℚ) ^ (52 : ℤ)
      = 2 ^ Int.log 2 q * 2 ^ ((52 : ℤ) - Int.log 2 q) := by
        rw [← zpow_add₀ (two_ne_zero : (2 : ℚ) ≠ 0)]
        congr 1
        ring
  _ ≤ q * 2 ^ ((52 : ℤ) - Int.log 2 q) := mul_le_mul_of_nonneg_right h1 hp.le

theorem sig_upper {q : ℚ} (hq : 0 < q) :
    q * 2 ^ ((52 : ℤ) - Int.log 2 q) < 2 ^ (53 : ℤ) := by
  have h1 := lt_two_zpow_log hq
  have hp : (0 : ℚ) < 2 ^ ((52 : ℤ) - Int.log 2 q) := zpow_pos (by norm_num) _
  calc q * 2 ^ ((52 : ℤ) - Int.log 2 q)
      < 2 ^ (Int.log 2 q + 1) * 2 ^ ((52 : ℤ) - Int.log 2 q) :=
        mul_lt_mul_of_pos_right h1 hp
  _ = 2 ^ (53 : ℤ) := by
        rw [← zpow_add₀ (two_ne_zero : (2 : ℚ) ≠ 0)]
        congr 1
        ring

theorem rne_sig_lower {q : ℚ} (hq : 0 < q) :
    2 ^ 52 ≤ rne (q * 2 ^ ((52 : ℤ) - Int.log 2 q)) := by
  have h1 := sig_lower hq
  have h2 : ((2 ^ 52 : ℤ) : ℚ) ≤ q * 2 ^ ((52 : ℤ) - Int.log 2 q) := by
    refine le_trans (le_of_eq ?_) h1
    push_cast
    norm_num
  have h3 := Int.le_floor.mpr h2
  have h4 := rne_floor_le (q * 2 ^ ((52 : ℤ) - Int.log 2 q))
  omega

theorem rne_sig_upper {q : ℚ} (hq : 0 < q) :
    rne (q * 2 ^ ((52 : ℤ) - Int.log 2 q)) ≤ 2 ^ 53 := by
  have h1 := sig_upper hq
  have h2 : q * 2 ^ ((52 : ℤ) - Int.log 2 q) < ((2 ^ 53 : ℤ) : ℚ) := by
    refine lt_of_lt_of_le h1 (le_of_eq ?_)
    push_cast
    norm_num
  have h3 := Int.floor_lt.mpr h2
  have h4 := rne_le_floor_add_one (q * 2 ^ ((52 : ℤ) - Int.log 2 q))
  omega

theorem f64round_pos {q : ℚ} (hq : 0 < q) : 0 < f64round q := by
  rw [f64round_eq hq]
  refine mul_pos ?_ (zpow_pos (by norm_num) _)
  have h := rne_sig_lower hq
  have hz : (0 : ℤ) < rne (q * 2 ^ ((52 : ℤ) - Int.log 2 q)) :=
    lt_of_lt_of_le (by norm_num) h
  exact_mod_cast hz

theorem two_zpow_le_f64round {q : ℚ} (hq : 0 < q) :
    (2 : ℚ) ^ Int.log 2 q ≤ f64round q := by
  rw [f64round_eq hq]
  have h1 := rne_sig_lower hq
  have h2 : ((2 : ℚ) ^ (52 : ℤ)) ≤ (rne (q * 2 ^ ((52 : ℤ) - Int.log 2 q)) : ℚ) := by
    have : ((2 ^ 52 : ℤ) : ℚ) ≤ (rne (q * 2 ^ ((52 : ℤ) - Int.log 2 q)) : ℚ) := by
      exact_mod_cast h1
    refine le_trans (le_of_eq ?_) this
    push_cast
    norm_num
  have hp : (0 : ℚ) < 2 ^ (Int.log 2 q - 52) := zpow_pos (by norm_num) _
  calc (2 : ℚ) ^ Int.log 2 q
      = 2 ^ (52 : ℤ) * 2 ^ (Int.log 2 q - 52) := by
        rw [← zpow_add₀ (two_ne_zero : (2 : ℚ) ≠ 0)]
        congr 1
        ring
  _ ≤ (rne (q * 2 ^ ((52 : ℤ) - Int.log 2 q)) : ℚ) * 2 ^ (Int.log 2 q - 52) :=
        mul_le_mul_of_nonneg_right h2 hp.le

theorem f64round_le_two_zpow {q : ℚ} (hq : 0 < q) :
    f64round q ≤ (2 : ℚ) ^ (Int.log 2 q + 1) := by
  rw [f64round_eq hq]
  have h1 := rne_sig_upper hq
  have h2 : (rne (q * 2 ^ ((52 : ℤ) - Int.log 2 q)) : ℚ) ≤ (2 : ℚ) ^ (53 : ℤ) := by
    have : (rne (q * 2 ^ ((52 : ℤ) - Int.log 2 q)) : ℚ) ≤ ((2 ^ 53 : ℤ) : ℚ) := by
      exact_mod_cast h1
    refine le_trans this (le_of_eq ?_)
    push_cast
    norm_num
  have hp : (0 : ℚ) < 2 ^ (Int.log 2 q - 52) := zpow_pos (by norm_num) _
  calc (rne (q * 2 ^ ((52 : ℤ) - Int.log 2 q)) : ℚ) * 2 ^ (Int.log 2 q - 52)
      ≤ (2 : ℚ) ^ (53 : ℤ) * 2 ^ (Int.log 2 q - 52) :=
        mul_le_mul_of_nonneg_right h2 hp.le
  _ = (2 : ℚ) ^ (Int.log 2 q + 1) := by
        rw [← zpow_add₀ (two_ne_zero : (2 : ℚ) ≠ 0)]
        congr 1
        ring

theorem f64round_mono {x y : ℚ} (hx : 0 < x) (hxy : x ≤ y) :
    f64round x ≤ f64round y := by
  have hy : 0 < y := lt_of_lt_of_le hx hxy
  have hlog : Int.log 2 x ≤ Int.log 2 y := Int.log_mono_right hx hxy
  rcases eq_or_lt_of_le hlog with heq | hlt
  · rw [f64round_eq hx, f64round_eq hy, ← heq]
    refine mul_le_mul_of_nonneg_right ?_ (zpow_pos (by norm_num) _).le
    have hm : x * 2 ^ ((52 : ℤ) - Int.log 2 x) ≤ y * 2 ^ ((52 : ℤ) - Int.log 2 x) :=
      mul_le_mul_of_nonneg_right hxy (zpow_pos (by norm_num : (0:ℚ) < 2) _).le
    exact_mod_cast rne_mono hm
  · calc f64round x ≤ 2 ^ (Int.log 2 x + 1) := f64round_le_two_zpow hx
    _ ≤ 2 ^ Int.log 2 y := by
        apply zpow_le_zpow_right₀ (by norm_num)
        omega
    _ ≤ f64round y := two_zpow_le_f64round hy

theorem f64round_natCast (n : ℕ) (h1 : 0 < n) (h2 : n < 2 ^ 53) :
    f64round (n : ℚ) = n := by
  have hq : (0 : ℚ) < n := by exact_mod_cast h1
  rw [f64round_eq hq]
  have he0 : 0 ≤ Int.log 2 (n : ℚ) := by
    rw [Int.log_of_one_le_right 2 (by exact_mod_cast h1 : (1 : ℚ) ≤ (n : ℚ))]
    exact Int.natCast_nonneg _
  have he53 : Int.log 2 (n : ℚ) ≤ 52 := by
    by_contra hcon
    push_neg at hcon
    have hle := two_zpow_log_le hq
    have h3 : (2 : ℚ) ^ (53 : ℤ) ≤ 2 ^ Int.log 2 (n : ℚ) :=
      zpow_le_zpow_right₀ (by norm_num) (by omega)
    have h4 : (n : ℚ) < 2 ^ (53 : ℤ) := by
      have : (n : ℚ) < ((2 ^ 53 : ℕ) : ℚ) := by exact_mod_cast h2
      refine lt_of_lt_of_le this (le_of_eq ?_)
      push_cast
      norm_num
    linarith
  have hk : (52 : ℤ) - Int.log 2 (n : ℚ) =
      (((52 : ℤ) - Int.log 2 (n : ℚ)).toNat : ℤ) :=
    (Int.toNat_of_nonneg (by omega)).symm
  have hs : (n : ℚ) * 2 ^ ((52 : ℤ) - Int.log 2 (n : ℚ)) =
      ((n * 2 ^ ((52 : ℤ) - Int.log 2 (n : ℚ)).toNat : ℤ) : ℚ) := by
    push_cast
    congr 1
    rw [← zpow_natCast (2 : ℚ), ← hk]
  rw [hs, rne_intCast]
  push_cast
  rw [show (2:ℚ) ^ (((52 : ℤ) - Int.log 2 (n : ℚ)).toNat) =
      (2:ℚ) ^ ((52 : ℤ) - Int.log 2 (n : ℚ)) from by rw [← zpow_natCast, ← hk]]
  rw [mul_assoc, ← zpow_add₀ (two_ne_zero : (2 : ℚ) ≠ 0)]
  rw [show (52 : ℤ) - Int.log 2 (n : ℚ) + (Int.log 2 (n : ℚ) - 52) = 0 from by ring]
  norm_num

theorem f64round_one : f64round 1 = 1 := by
  have h := f64round_natCast 1 one_pos (by norm_num)
  simpa using h

theorem abs_f64round_sub {q : ℚ} (hq : 0 < q) :
    |f64round q - q| ≤ q * 2 ^ (-53 : ℤ) := by
  rw [f64round_eq hq]
  set e := Int.log 2 q with hedef
  set s := q * 2 ^ ((52 : ℤ) - e) with hsdef
  have hp : (0 : ℚ) < 2 ^ (e - 52) := zpow_pos (by norm_num) _
  have hq' : q = s * 2 ^ (e - 52) := by
    rw [hsdef, mul_assoc, ← zpow_add₀ (two_ne_zero : (2 : ℚ) ≠ 0),
      show (52 : ℤ) - e + (e - 52) = 0 from by ring]
    norm_num
  have key : |(rne s : ℚ) * 2 ^ (e - 52) - q| = |(rne s : ℚ) - s| * 2 ^ (e - 52) := by
    nth_rewrite 1 [hq']
    rw [← sub_mul, abs_mul, abs_of_pos hp]
  rw [key]
  calc |(rne s : ℚ) - s| * 2 ^ (e - 52)
      ≤ (1 / 2) * 2 ^ (e - 52) :=
        mul_le_mul_of_nonneg_right (abs_rne_sub _) hp.le
  _ = 2 ^ (e - 53) := by
        rw [show (1 / 2 : ℚ) = 2 ^ (-1 : ℤ) from by norm_num,
          ← zpow_add₀ (two_ne_zero : (2 : ℚ) ≠ 0)]
        congr 1
        ring
  _ = 2 ^ e * 2 ^ (-53 : ℤ) := by
        rw [← zpow_add₀ (two_ne_zero : (2 : ℚ) ≠ 0)]
        congr 1
        try ring
  _ ≤ q * 2 ^ (-53 : ℤ) :=
        mul_le_mul_of_nonneg_right (two_zpow_log_le hq)
          (zpow_pos (by norm_num : (0:ℚ) < 2) _).le

theorem f64_as_u32_away_le {c : ℚ} {t : ℕ} (hc : 0 ≤ c) (hct : c ≤ t) :
    f64_as_u32 (f64round_away c) ≤ t := by
  unfold f64round_away
  rw [if_neg (not_lt.mpr hc)]
  unfold f64_as_u32
  have hfl0 : 0 ≤ ⌊c + 1 / 2⌋ := Int.floor_nonneg.mpr (by linarith)
  rw [if_neg (not_lt.mpr (by exact_mod_cast hfl0 : (0 : ℚ) ≤ ((⌊c + 1 / 2⌋ : ℤ) : ℚ)))]
  have hTle : ⌊c + 1 / 2⌋ ≤ (t : ℤ) := by
    have h1 : ⌊c + 1 / 2⌋ ≤ ⌊(t : ℚ) + 1 / 2⌋ := Int.floor_le_floor (by linarith)
    have h2 : ⌊(t : ℚ) + 1 / 2⌋ = (t : ℤ) := by
      rw [add_comm, Int.floor_add_nat]
      norm_num
    omega
  rw [← Int.floor_toNat, Int.floor_intCast]
  refine le_trans (min_le_right _ _) ?_
  omega

/-- C9: for positive `u32` inputs, both computed dimensions are at most
`tallestSide` and their maximum equals `tallestSide`. -/
theorem C9_tallest_side_bounds (w h t : ℕ)
    (hw : 0 < w) (hh : 0 < h) (ht : 0 < t)
    (hwb : w < 2 ^ 32) (hhb : h < 2 ^ 32) (htb : t < 2 ^ 32) :
    max (calculate_resized_dimensions w h t).1
      (calculate_resized_dimensions w h t).2 = t ∧
    (calculate_resized_dimensions w h t).1 ≤ t ∧
    (calculate_resized_dimensions w h t).2 ≤ t := by
  have hwq : (0 : ℚ) < w := by exact_mod_cast hw
  have hhq : (0 : ℚ) < h := by exact_mod_cast hh
  have htq : (0 : ℚ) < t := by exact_mod_cast ht
  have hft : f64round (t : ℚ) = t := f64round_natCast t ht (by omega)
  unfold calculate_resized_dimensions
  rw [if_neg (by push_neg; exact ⟨by omega, by omega, by omega⟩)]
  dsimp only
  by_cases hbr : h ≤ w
  · rw [if_pos hbr]
    have hrge : (1 : ℚ) ≤ (w : ℚ) / h := by
      rw [le_div_iff hhq, one_mul]
      exact_mod_cast hbr
    have hr1 : (1 : ℚ) ≤ f64round ((w : ℚ) / h) := by
      calc (1 : ℚ) = f64round 1 := f64round_one.symm
      _ ≤ f64round ((w : ℚ) / h) := f64round_mono one_pos hrge
    have hrpos : (0 : ℚ) < f64round ((w : ℚ) / h) := lt_of_lt_of_le one_pos hr1
    have hqle : (t : ℚ) / f64round ((w : ℚ) / h) ≤ (t : ℚ) := div_le_self htq.le hr1
    have hqpos : (0 : ℚ) < (t : ℚ) / f64round ((w : ℚ) / h) := div_pos htq hrpos
    have hc : f64round ((t : ℚ) / f64round ((w : ℚ) / h)) ≤ (t : ℚ) := by
      calc f64round ((t : ℚ) / f64round ((w : ℚ) / h))
          ≤ f64round (t : ℚ) := f64round_mono hqpos hqle
      _ = t := hft
    have hc0 : (0 : ℚ) ≤ f64round ((t : ℚ) / f64round ((w : ℚ) / h)) :=
      (f64round_pos hqpos).le
    have hle := f64_as_u32_away_le hc0 hc
    exact ⟨max_eq_left hle, le_refl t, hle⟩
  · rw [if_neg hbr]
    have hwlt : w < h := by omega
    have hrle : (w : ℚ) / h ≤ 1 := by
      rw [div_le_one hhq]
      exact_mod_cast le_of_lt hwlt
    have hr0 : (0 : ℚ) < (w : ℚ) / h := div_pos hwq hhq
    have hr1 : f64round ((w : ℚ) / h) ≤ 1 := by
      calc f64round ((w : ℚ) / h) ≤ f64round 1 := f64round_mono hr0 hrle
      _ = 1 := f64round_one
    have hrpos := f64round_pos hr0
    have hple : (t : ℚ) * f64round ((w : ℚ) / h) ≤ (t : ℚ) := by
      calc (t : ℚ) * f64round ((w : ℚ) / h) ≤ (t : ℚ) * 1 :=
        mul_le_mul_of_nonneg_left hr1 htq.le
      _ = t := mul_one _
    have hppos : (0 : ℚ) < (t : ℚ) * f64round ((w : ℚ) / h) := mul_pos htq hrpos
    have hc : f64round ((t : ℚ) * f64round ((w : ℚ) / h)) ≤ (t : ℚ) := by
      calc f64round ((t : ℚ) * f64round ((w : ℚ) / h))
          ≤ f64round (t : ℚ) := f64round_mono hppos hple
      _ = t := hft
    have hc0 : (0 : ℚ) ≤ f64round ((t : ℚ) * f64round ((w : ℚ) / h)) :=
      (f64round_pos hppos).le
    have hle := f64_as_u32_away_le hc0 hc
    exact ⟨max_eq_right hle, hle, le_refl t⟩

/-- Witness for C9 at a concrete landscape input. -/
theorem C9_tallest_side_bounds_witness :
    max (calculate_resized_dimensions 4000 2000 1000).1
      (calculate_resized_dimensions 4000 2000 1000).2 = 1000 ∧
    (calculate_resized_dimensions 4000 2000 1000).1 ≤ 1000 ∧
    (calculate_resized_dimensions 4000 2000 1000).2 ≤ 1000 :=
  C9_tallest_side_bounds 4000 2000 1000 (by decide) (by decide) (by decide)
    (by decide) (by decide) (by decide)

theorem floor_half_diff {c v : ℚ} (h : |c - v| < 1 / 2) :
    |⌊c + 1 / 2⌋ - ⌊v + 1 / 2⌋| ≤ 1 := by
  rw [abs_lt] at h
  have h1 : ⌊c + 1 / 2⌋ ≤ ⌊v + 1⌋ := Int.floor_le_floor (by linarith)
  have h2 : ⌊v⌋ ≤ ⌊c + 1 / 2⌋ := Int.floor_le_floor (by linarith)
  have h3 : ⌊v + 1⌋ = ⌊v⌋ + 1 := by
    rw [show (1 : ℚ) = ((1 : ℤ) : ℚ) from by norm_num, Int.floor_add_int]
  have h4 : ⌊v⌋ ≤ ⌊v + 1 / 2⌋ := Int.floor_le_floor (by linarith)
  have h5 : ⌊v + 1 / 2⌋ ≤ ⌊v + 1⌋ := Int.floor_le_floor (by linarith)
  rw [abs_le]
  omega

theorem f64_as_u32_away_eq {c : ℚ} {t : ℕ} (hc : 0 ≤ c) (hct : c ≤ t)
    (htb : t < 2 ^ 32) :
    (f64_as_u32 (f64round_away c) : ℤ) = ⌊c + 1 / 2⌋ := by
  unfold f64round_away
  rw [if_neg (not_lt.mpr hc)]
  unfold f64_as_u32
  have hfl0 : 0 ≤ ⌊c + 1 / 2⌋ := Int.floor_nonneg.mpr (by linarith)
  rw [if_neg (not_lt.mpr (by exact_mod_cast hfl0 : (0 : ℚ) ≤ ((⌊c + 1 / 2⌋ : ℤ) : ℚ)))]
  rw [← Int.floor_toNat, Int.floor_intCast]
  have hTle : ⌊c + 1 / 2⌋ ≤ (t : ℤ) := by
    have h1 : ⌊c + 1 / 2⌋ ≤ ⌊(t : ℚ) + 1 / 2⌋ := Int.floor_le_floor (by linarith)
    have h2 : ⌊(t : ℚ) + 1 / 2⌋ = (t : ℤ) := by
      rw [add_comm, Int.floor_add_nat]
      norm_num
    omega
  have hmin : min 4294967295 (⌊c + 1 / 2⌋).toNat = (⌊c + 1 / 2⌋).toNat :=
    min_eq_right (by omega)
  rw [hmin]
  omega

theorem round_ties_away_toNat {v : ℚ} (hv : 0 ≤ v) :
    ((round_ties_away v).toNat : ℤ) = ⌊v + 1 / 2⌋ := by
  unfold round_ties_away
  rw [if_neg (not_lt.mpr hv)]
  have h : 0 ≤ ⌊v + 1 / 2⌋ := Int.floor_nonneg.mpr (by linarith)
  omega

theorem landscape_err (w h t : ℕ) (hw : 0 < w) (hh : 0 < h) (ht : 0 < t)
    (htb : t < 2 ^ 32) (hbr : h ≤ w) :
    |f64round ((t : ℚ) / f64round ((w : ℚ) / h)) - (t : ℚ) / ((w : ℚ) / h)| <
      1 / 2 := by
  have hwq : (0 : ℚ) < w := by exact_mod_cast hw
  have hhq : (0 : ℚ) < h := by exact_mod_cast hh
  have htq : (0 : ℚ) < t := by exact_mod_cast ht
  set r : ℚ := (w : ℚ) / h with hrdef
  have hr0 : 0 < r := div_pos hwq hhq
  have hrge : (1 : ℚ) ≤ r := by
    rw [hrdef, le_div_iff hhq, one_mul]
    exact_mod_cast hbr
  set r' : ℚ := f64round r with hrrdef
  have hrr1 : (1 : ℚ) ≤ r' := by
    rw [hrrdef]
    calc (1 : ℚ) = f64round 1 := f64round_one.symm
    _ ≤ f64round r := f64round_mono one_pos hrge
  have hrr0 : (0 : ℚ) < r' := lt_of_lt_of_le one_pos hrr1
  have herr1 : |r' - r| ≤ r * 2 ^ (-53 : ℤ) := abs_f64round_sub hr0
  set q' : ℚ := (t : ℚ) / r' with hqqdef
  have hqq0 : 0 < q' := div_pos htq hrr0
  have hqqle : q' ≤ t := div_le_self htq.le hrr1
  have herr2 : |f64round q' - q'| ≤ q' * 2 ^ (-53 : ℤ) := abs_f64round_sub hqq0
  have hstep1 : |q' - (t : ℚ) / r| ≤ (t : ℚ) * 2 ^ (-53 : ℤ) := by
    have hsub : q' - (t : ℚ) / r = (t : ℚ) * (r - r') / (r' * r) := by
      rw [hqqdef]
      field_simp
      ring
    rw [hsub, abs_div, abs_mul, abs_of_pos (mul_pos hrr0 hr0), abs_of_pos htq]
    have hnum : (t : ℚ) * |r - r'| ≤ (t : ℚ) * (r * 2 ^ (-53 : ℤ)) := by
      refine mul_le_mul_of_nonneg_left ?_ htq.le
      rw [abs_sub_comm]
      exact herr1
    calc (t : ℚ) * |r - r'| / (r' * r)
        ≤ (t : ℚ) * (r * 2 ^ (-53 : ℤ)) / (r' * r) := by gcongr
    _ = (t : ℚ) * 2 ^ (-53 : ℤ) / r' := by
        field_simp
        ring
    _ ≤ (t : ℚ) * 2 ^ (-53 : ℤ) := div_le_self (by positivity) hrr1
  have htri : |f64round q' - (t : ℚ) / r| ≤
      |f64round q' - q'| + |q' - (t : ℚ) / r| := abs_sub_le _ _ _
  have hqqbd : q' * 2 ^ (-53 : ℤ) ≤ (t : ℚ) * 2 ^ (-53 : ℤ) :=
    mul_le_mul_of_nonneg_right hqqle (by positivity)
  have hpw : (2 : ℚ) ^ (-53 : ℤ) = 1 / 9007199254740992 := by norm_num
  have ht32 : (t : ℚ) < 4294967296 := by
    have : (t : ℚ) < ((2 ^ 32 : ℕ) : ℚ) := by exact_mod_cast htb
    simpa using this
  rw [hpw] at herr2 hstep1 hqqbd
  linarith

theorem portrait_err (w h t : ℕ) (hw : 0 < w) (hh : 0 < h) (ht : 0 < t)
    (htb : t < 2 ^ 32) (hbr : w < h) :
    |f64round ((t : ℚ) * f64round ((w : ℚ) / h)) - (t : ℚ) * ((w : ℚ) / h)| <
      1 / 2 := by
  have hwq : (0 : ℚ) < w := by exact_mod_cast hw
  have hhq : (0 : ℚ) < h := by exact_mod_cast hh
  have htq : (0 : ℚ) < t := by exact_mod_cast ht
  set r : ℚ := (w : ℚ) / h with hrdef
  have hr0 : 0 < r := div_pos hwq hhq
  have hrle : r ≤ 1 := by
    rw [hrdef, div_le_one hhq]
    exact_mod_cast le_of_lt hbr
  set r' : ℚ := f64round r with hrrdef
  have hrrle : r' ≤ 1 := by
    rw [hrrdef]
    calc f64round r ≤ f64round 1 := f64round_mono hr0 hrle
    _ = 1 := f64round_one
  have hrr0 : (0 : ℚ) < r' := f64round_pos hr0
  have herr1 : |r' - r| ≤ r * 2 ^ (-53 : ℤ) := abs_f64round_sub hr0
  set p' : ℚ := (t : ℚ) * r' with hppdef
  have hpp0 : 0 < p' := mul_pos htq hrr0
  have hpple : p' ≤ t := by
    rw [hppdef]
    calc (t : ℚ) * r' ≤ (t : ℚ) * 1 := mul_le_mul_of_nonneg_left hrrle htq.le
    _ = t := mul_one _
  have herr2 : |f64round p' - p'| ≤ p' * 2 ^ (-53 : ℤ) := abs_f64round_sub hpp0
  have hstep1 : |p' - (t : ℚ) * r| ≤ (t : ℚ) * 2 ^ (-53 : ℤ) := by
    have hsub : p' - (t : ℚ) * r = (t : ℚ) * (r' - r) := by
      rw [hppdef]
      ring
    rw [hsub, abs_mul, abs_of_pos htq]
    calc (t : ℚ) * |r' - r| ≤ (t : ℚ) * (r * 2 ^ (-53 : ℤ)) :=
          mul_le_mul_of_nonneg_left herr1 htq.le
    _ ≤ (t : ℚ) * (1 * 2 ^ (-53 : ℤ)) := by
          refine mul_le_mul_of_nonneg_left ?_ htq.le
          exact mul_le_mul_of_nonneg_right hrle (by positivity)
    _ = (t : ℚ) * 2 ^ (-53 : ℤ) := by ring
  have htri : |f64round p' - (t : ℚ) * r| ≤
      |f64round p' - p'| + |p' - (t : ℚ) * r| := abs_sub_le _ _ _
  have hppbd : p' * 2 ^ (-53 : ℤ) ≤ (t : ℚ) * 2 ^ (-53 : ℤ) :=
    mul_le_mul_of_nonneg_right hpple (by positivity)
  have hpw : (2 : ℚ) ^ (-53 : ℤ) = 1 / 9007199254740992 := by norm_num
  have ht32 : (t : ℚ) < 4294967296 := by
    have : (t : ℚ) < ((2 ^ 32 : ℕ) : ℚ) := by exact_mod_cast htb
    simpa using this
  rw [hpw] at herr2 hstep1 hppbd
  linarith

set_option maxRecDepth 10000 in
unseal Rat.mul Rat.add Rat.inv Rat.sub in
/-- C2 counterexample: at `(14, 3, 35)` the code returns `(35, 7)` while
the real-valued formula with ties away from zero gives `(35, 8)` — the
exact value is precisely `7.5`, but the double-precision evaluation of
`35 / (14/3)` lands just below it, so the code rounds down. -/
theorem C2_exact_formula_counterexample :
    calculate_resized_dimensions 14 3 35 = (35, 7) ∧
    spec_resized_dimensions 14 3 35 = (35, 8) := by
  constructor
  · decide
  · decide

set_option maxRecDepth 10000 in
unseal Rat.mul Rat.add Rat.inv Rat.sub in
/-- C2 amended: the pinned dimension is as the formula states (landscape
or square pins width, portrait pins height, both to `tallestSide`); the
other dimension is the formula evaluated in IEEE-754 double precision,
which differs from the nearest-integer rounding of the real-valued
formula by at most 1; the three listed examples hold exactly. -/
theorem C2_resized_dimensions_formula :
    (∀ w h t : ℕ, 0 < w → 0 < h → 0 < t → w < 2 ^ 32 → h < 2 ^ 32 → t < 2 ^ 32 →
      (h ≤ w →
        (calculate_resized_dimensions w h t).1 = t ∧
        (spec_resized_dimensions w h t).1 = t ∧
        |((calculate_resized_dimensions w h t).2 : ℤ) -
          ((spec_resized_dimensions w h t).2 : ℤ)| ≤ 1) ∧
      (w < h →
        (calculate_resized_dimensions w h t).2 = t ∧
        (spec_resized_dimensions w h t).2 = t ∧
        |((calculate_resized_dimensions w h t).1 : ℤ) -
          ((spec_resized_dimensions w h t).1 : ℤ)| ≤ 1)) ∧
    calculate_resized_dimensions 4000 2000 1000 = (1000, 500) ∧
    calculate_resized_dimensions 2000 4000 1000 = (500, 1000) ∧
    calculate_resized_dimensions 1000 1000 500 = (500, 500) := by
  refine ⟨?_, by decide, by decide, by decide⟩
  intro w h t hw hh ht hwb hhb htb
  have hwq : (0 : ℚ) < w := by exact_mod_cast hw
  have hhq : (0 : ℚ) < h := by exact_mod_cast hh
  have htq : (0 : ℚ) < t := by exact_mod_cast ht
  have hft : f64round (t : ℚ) = t := f64round_natCast t ht (by omega)
  have hr0 : (0 : ℚ) < (w : ℚ) / h := div_pos hwq hhq
  constructor
  · intro hbr
    have hcalc : calculate_resized_dimensions w h t =
        (t, f64_as_u32 (f64round_away
          (f64round ((t : ℚ) / f64round ((w : ℚ) / h))))) := by
      unfold calculate_resized_dimensions
      rw [if_neg (by push_neg; exact ⟨by omega, by omega, by omega⟩)]
      dsimp only
      rw [if_pos hbr]
    have hspec : spec_resized_dimensions w h t =
        (t, (round_ties_away ((t : ℚ) / ((w : ℚ) / h))).toNat) := by
      unfold spec_resized_dimensions
      rw [if_neg (by push_neg; exact ⟨by omega, by omega, by omega⟩), if_pos hbr]
    rw [hcalc, hspec]
    refine ⟨rfl, rfl, ?_⟩
    have hrge : (1 : ℚ) ≤ (w : ℚ) / h := by
      rw [le_div_iff hhq, one_mul]
      exact_mod_cast hbr
    have hr1 : (1 : ℚ) ≤ f64round ((w : ℚ) / h) := by
      calc (1 : ℚ) = f64round 1 := f64round_one.symm
      _ ≤ f64round ((w : ℚ) / h) := f64round_mono one_pos hrge
    have hrpos : (0 : ℚ) < f64round ((w : ℚ) / h) := lt_of_lt_of_le one_pos hr1
    have hqpos : (0 : ℚ) < (t : ℚ) / f64round ((w : ℚ) / h) := div_pos htq hrpos
    have hqle : (t : ℚ) / f64round ((w : ℚ) / h) ≤ (t : ℚ) := div_le_self htq.le hr1
    have hc : f64round ((t : ℚ) / f64round ((w : ℚ) / h)) ≤ (t : ℚ) := by
      calc f64round ((t : ℚ) / f64round ((w : ℚ) / h))
          ≤ f64round (t : ℚ) := f64round_mono hqpos hqle
      _ = t := hft
    have hc0 : (0 : ℚ) ≤ f64round ((t : ℚ) / f64round ((w : ℚ) / h)) :=
      (f64round_pos hqpos).le
    have hv0 : (0 : ℚ) ≤ (t : ℚ) / ((w : ℚ) / h) := (div_pos htq hr0).le
    rw [f64_as_u32_away_eq hc0 hc htb, round_ties_away_toNat hv0]
    exact floor_half_diff (landscape_err w h t hw hh ht htb hbr)
  · intro hbr
    have hnbr : ¬h ≤ w := by omega
    have hcalc : calculate_resized_dimensions w h t =
        (f64_as_u32 (f64round_away
          (f64round ((t : ℚ) * f64round ((w : ℚ) / h)))), t) := by
      unfold calculate_resized_dimensions
      rw [if_neg (by push_neg; exact ⟨by omega, by omega, by omega⟩)]
      dsimp only
      rw [if_neg hnbr]
    have hspec : spec_resized_dimensions w h t =
        ((round_ties_away ((t : ℚ) * ((w : ℚ) / h))).toNat, t) := by
      unfold spec_resized_dimensions
      rw [if_neg (by push_neg; exact ⟨by omega, by omega, by omega⟩), if_neg hnbr]
    rw [hcalc, hspec]
    refine ⟨rfl, rfl, ?_⟩
    have hrle : (w : ℚ) / h ≤ 1 := by
      rw [div_le_one hhq]
      exact_mod_cast le_of_lt hbr
    have hr1 : f64round ((w : ℚ) / h) ≤ 1 := by
      calc f64round ((w : ℚ) / h) ≤ f64round 1 := f64round_mono hr0 hrle
      _ = 1 := f64round_one
    have hrpos := f64round_pos hr0
    have hppos : (0 : ℚ) < (t : ℚ) * f64round ((w : ℚ) / h) := mul_pos htq hrpos
    have hple : (t : ℚ) * f64round ((w : ℚ) / h) ≤ (t : ℚ) := by
      calc (t : ℚ) * f64round ((w : ℚ) / h) ≤ (t : ℚ) * 1 :=
        mul_le_mul_of_nonneg_left hr1 htq.le
      _ = t := mul_one _
    have hc : f64round ((t : ℚ) * f64round ((w : ℚ) / h)) ≤ (t : ℚ) := by
      calc f64round ((t : ℚ) * f64round ((w : ℚ) / h))
          ≤ f64round (t : ℚ) := f64round_mono hppos hple
      _ = t := hft
    have hc0 : (0 : ℚ) ≤ f64round ((t : ℚ) * f64round ((w : ℚ) / h)) :=
      (f64round_pos hppos).le
    have hv0 : (0 : ℚ) ≤ (t : ℚ) * ((w : ℚ) / h) := (mul_pos htq hr0).le
    rw [f64_as_u32_away_eq hc0 hc htb, round_ties_away_toNat hv0]
    exact floor_half_diff (portrait_err w h t hw hh ht htb hbr)

/-- Witness for the amended C2, at the input `(14, 3, 35)` where the
double-precision result differs from the real-valued formula by one. -/
theorem C2_resized_dimensions_formula_witness :
    (calculate_resized_dimensions 14 3 35).1 = 35 ∧
    (spec_resized_dimensions 14 3 35).1 = 35 ∧
    |((calculate_resized_dimensions 14 3 35).2 : ℤ) -
      ((spec_resized_dimensions 14 3 35).2 : ℤ)| ≤ 1 :=
  (C2_resized_dimensions_formula.1 14 3 35 (by decide) (by decide) (by decide)
    (by decide) (by decide) (by decide)).1 (by decide)
